import Mathlib

/-!
Verification of the buffered CDC relay against its specification.

The durable buffer (internal/buffer/buffer.go) is a bbolt bucket: an ordered
key-value store whose keys are the strings `fmt.Sprintf("%d_%s", ts.UnixNano(), id)`
iterated in ascending byte order, and whose values are JSON-encoded events.
We embed the bucket as an association list kept sorted by key (String order on
ASCII/UTF-8 strings coincides with byte order), a value being either a
decodable event (`Record.good`) or bytes that fail JSON decoding (`Record.bad`).
Instants are `Int` nanoseconds (Go `time.Time.UnixNano`); `time.Time`
comparisons `Before`/`Equal`/`After` are comparisons of those integers.

The sync worker (internal/sync/kafka.go) is embedded as functions that thread
the bucket state and record a trace of externally visible operations
(`SyncOp`): Kafka write attempts, backoff sleeps, retry-count updates and
buffer deletes.  The nondeterministic environment (outcome of each Kafka
write attempt, connectivity status after a failed attempt, context
cancellation while waiting to retry) is a `RetryEnv` parameter.
-/

/-- Event (buffer.go lines 15-22).  `Data` is an opaque payload
(`map[string]interface{}`), modelled as an association list; the core treats
it as a blob.  `RequestedReadyTime` is `*time.Time` (nullable). -/
structure Event where
  id : String
  operation : String
  timestamp : Int
  data : List (String × String)
  retries : Int
  requestedReadyTime : Option Int
deriving DecidableEq

/-- A stored bucket value: the JSON bytes either decode to an `Event` or fail
to decode (`json.Unmarshal` returns an error and the reader skips the record). -/
inductive Record where
  | good (e : Event)
  | bad (raw : String)
deriving DecidableEq

/-- The "events" bucket: entries in ascending byte order of key, as bbolt's
cursor iterates them. -/
abbrev Bucket := List (String × Record)

/-- Compound storage key `fmt.Sprintf("%d_%s", event.Timestamp.UnixNano(), event.ID)`
(buffer.go line 57). -/
def eventKey (ts : Int) (id : String) : String :=
  toString ts ++ "_" ++ id

/-- `bucket.Get(key)`: first (only) entry with this key. -/
def bucketGet : Bucket → String → Option Record
  | [], _ => none
  | (k', v') :: rest, k => if k = k' then some v' else bucketGet rest k

/-- Byte order on strings, as bbolt's `bytes.Compare` orders keys.  UTF-8
byte order coincides with code point order, so we compare code points
structurally. -/
def charsLt : List Char → List Char → Bool
  | [], [] => false
  | [], _ :: _ => true
  | _ :: _, [] => false
  | a :: as, b :: bs =>
    if a.toNat < b.toNat then true
    else if b.toNat < a.toNat then false
    else charsLt as bs

def keyLt (a b : String) : Bool := charsLt a.data b.data

/-- `bucket.Put(key, value)`: insert keeping ascending key order, replacing an
existing entry with the same key (later write wins). -/
def bucketPut : Bucket → String → Record → Bucket
  | [], k, v => [(k, v)]
  | (k', v') :: rest, k, v =>
    if keyLt k k' then (k, v) :: (k', v') :: rest
    else if k = k' then (k, v) :: rest
    else (k', v') :: bucketPut rest k v

/-- `bucket.Delete(key)`: remove the entry with this key; absent key is a
no-op (bbolt returns nil either way). -/
def bucketDelete : Bucket → String → Bucket
  | [], _ => []
  | (k', v') :: rest, k => if k = k' then rest else (k', v') :: bucketDelete rest k

/-- Thirty minutes in nanoseconds: the readiness window
`now.Add(30 * time.Minute)` of buffer.go line 105. -/
def READY_WINDOW : Int := 1800000000000

namespace Buffer

/-- `Buffer.Store` (buffer.go lines 48-60): marshal the event and put it under
its compound key.  Marshalling a well-formed event cannot fail. -/
def Store (s : Bucket) (e : Event) : Bucket :=
  bucketPut s (eventKey e.timestamp e.id) (Record.good e)

/-- Scan loop of `Buffer.GetBatch` (buffer.go lines 70-77): iterate from the
first key; a record whose value fails to decode is skipped with `continue`
(it does not count toward the batch size); stop once `batchSize` events are
collected. -/
def getBatchAux : Bucket → Nat → List Event
  | [], _ => []
  | _ :: _, 0 => []
  | (_, Record.bad _) :: rest, Nat.succ n => getBatchAux rest (Nat.succ n)
  | (_, Record.good e) :: rest, Nat.succ n => e :: getBatchAux rest n

/-- `Buffer.GetBatch` (buffer.go lines 62-83). -/
def GetBatch (s : Bucket) (batchSize : Nat) : List Event :=
  getBatchAux s batchSize

/-- Scan loop of `Buffer.GetReadyEvents` (buffer.go lines 93-111): like
`GetBatch` but an event is collected only when `RequestedReadyTime` is nil, or
`Before` or `Equal` the threshold `now + 30 minutes`; a not-ready event does
not count toward the batch size. -/
def getReadyAux (now : Int) : Bucket → Nat → List Event
  | [], _ => []
  | _ :: _, 0 => []
  | (_, Record.bad _) :: rest, Nat.succ n => getReadyAux now rest (Nat.succ n)
  | (_, Record.good e) :: rest, Nat.succ n =>
    match e.requestedReadyTime with
    | none => e :: getReadyAux now rest n
    | some rt =>
      if rt ≤ now + READY_WINDOW then e :: getReadyAux now rest n
      else getReadyAux now rest (Nat.succ n)

/-- `Buffer.GetReadyEvents` (buffer.go lines 85-117); `now` is the call time
(`time.Now()` at line 87). -/
def GetReadyEvents (s : Bucket) (batchSize : Nat) (now : Int) : List Event :=
  getReadyAux now s batchSize

/-- `Buffer.Delete` (buffer.go lines 119-125): delete the compound key; never
errors short of engine failure. -/
def Delete (s : Bucket) (id : String) (ts : Int) : Except String Bucket :=
  Except.ok (bucketDelete s (eventKey ts id))

/-- `Buffer.UpdateRetries` (buffer.go lines 127-150): read-modify-write of the
`Retries` field; `"event not found"` when the key is absent; a decode failure
of the stored value aborts the transaction (store unchanged). -/
def UpdateRetries (s : Bucket) (id : String) (ts : Int) (retries : Int) :
    Except String Bucket :=
  let k := eventKey ts id
  match bucketGet s k with
  | none => Except.error "event not found"
  | some (Record.bad _) => Except.error "unmarshal failed"
  | some (Record.good e) =>
    Except.ok (bucketPut s k (Record.good { e with retries := retries }))

/-- `Buffer.Count` (buffer.go lines 152-160): `bucket.Stats().KeyN`, the number
of keys, decodable or not. -/
def Count (s : Bucket) : Nat := s.length

end Buffer

/-- The decodable events of the bucket, in key order. -/
def goodEvents (s : Bucket) : List Event :=
  s.filterMap fun kv =>
    match kv.2 with
    | Record.good e => some e
    | Record.bad _ => none

/-- Readiness predicate of `GetReadyEvents` exactly as the source tests it:
nil `RequestedReadyTime`, or `Before`/`Equal` the threshold `now + 30 min`. -/
def isReady (now : Int) (e : Event) : Bool :=
  match e.requestedReadyTime with
  | none => true
  | some rt => decide (rt ≤ now + READY_WINDOW)

theorem getBatchAux_eq (s : Bucket) :
    ∀ n, Buffer.getBatchAux s n = (goodEvents s).take n := by
  induction s with
  | nil => intro n; simp [Buffer.getBatchAux, goodEvents]
  | cons kv rest ih =>
    intro n
    obtain ⟨k, v⟩ := kv
    cases v with
    | bad raw =>
      cases n with
      | zero => rfl
      | succ m =>
        simpa [Buffer.getBatchAux, goodEvents, List.filterMap_cons] using ih (Nat.succ m)
    | good e =>
      cases n with
      | zero => rfl
      | succ m =>
        simpa [Buffer.getBatchAux, goodEvents, List.filterMap_cons] using
          congrArg (e :: ·) (ih m)

theorem getReadyAux_eq (now : Int) (s : Bucket) :
    ∀ n, Buffer.getReadyAux now s n = ((goodEvents s).filter (isReady now)).take n := by
  induction s with
  | nil => intro n; simp [Buffer.getReadyAux, goodEvents]
  | cons kv rest ih =>
    intro n
    obtain ⟨k, v⟩ := kv
    cases v with
    | bad raw =>
      cases n with
      | zero => rfl
      | succ m =>
        simp only [Buffer.getReadyAux, goodEvents, List.filterMap_cons]
        exact ih (Nat.succ m)
    | good e =>
      cases n with
      | zero => rfl
      | succ m =>
        cases hrt : e.requestedReadyTime with
        | none =>
          have hr : isReady now e = true := by simp [isReady, hrt]
          simpa [Buffer.getReadyAux, goodEvents, List.filterMap_cons, hrt,
            List.filter_cons, hr] using congrArg (e :: ·) (ih m)
        | some rt =>
          by_cases hle : rt ≤ now + READY_WINDOW
          · have hr : isReady now e = true := by simp [isReady, hrt, hle]
            simpa [Buffer.getReadyAux, goodEvents, List.filterMap_cons, hrt, hle,
              List.filter_cons, hr] using congrArg (e :: ·) (ih m)
          · have hr : isReady now e = false := by simp [isReady, hrt, hle]
            simpa [Buffer.getReadyAux, goodEvents, List.filterMap_cons, hrt, hle,
              List.filter_cons, hr] using ih (Nat.succ m)

theorem Buffer.getBatch_eq (s : Bucket) (n : Nat) :
    Buffer.GetBatch s n = (goodEvents s).take n :=
  getBatchAux_eq s n

theorem Buffer.getReady_eq (s : Bucket) (n : Nat) (now : Int) :
    Buffer.GetReadyEvents s n now = ((goodEvents s).filter (isReady now)).take n :=
  getReadyAux_eq now s n

theorem charsLt_irrefl : ∀ l : List Char, charsLt l l = false
  | [] => rfl
  | a :: as => by simp [charsLt, charsLt_irrefl as]

theorem charsLt_trans : ∀ {a b c : List Char},
    charsLt a b = true → charsLt b c = true → charsLt a c = true
  | [], [], _, h1, _ => by simp [charsLt] at h1
  | [], _ :: _, [], _, h2 => by simp [charsLt] at h2
  | [], _ :: _, _ :: _, _, _ => rfl
  | _ :: _, [], _, h1, _ => by simp [charsLt] at h1
  | _ :: _, _ :: _, [], _, h2 => by simp [charsLt] at h2
  | x :: xs, y :: ys, z :: zs, h1, h2 => by
    simp only [charsLt] at h1 h2 ⊢
    by_cases hxy : x.toNat < y.toNat
    · by_cases hyz : y.toNat < z.toNat
      · simp [Nat.lt_trans hxy hyz]
      · by_cases hzy : z.toNat < y.toNat
        · simp [hyz, hzy] at h2
        · simp [show x.toNat < z.toNat by omega]
    · by_cases hyx : y.toNat < x.toNat
      · simp [hxy, hyx] at h1
      · simp only [hxy, if_false, hyx] at h1
        by_cases hyz : y.toNat < z.toNat
        · simp [show x.toNat < z.toNat by omega]
        · by_cases hzy : z.toNat < y.toNat
          · simp [hyz, hzy] at h2
          · simp only [hyz, if_false, hzy] at h2
            simp [show ¬(x.toNat < z.toNat) by omega, show ¬(z.toNat < x.toNat) by omega,
              charsLt_trans h1 h2]

theorem charsLt_total : ∀ {a b : List Char},
    charsLt a b = false → a ≠ b → charsLt b a = true
  | [], [], _, hne => absurd rfl hne
  | [], _ :: _, h1, _ => by simp [charsLt] at h1
  | _ :: _, [], _, _ => rfl
  | x :: xs, y :: ys, h1, hne => by
    simp only [charsLt] at h1 ⊢
    by_cases hxy : x.toNat < y.toNat
    · simp [hxy] at h1
    · by_cases hyx : y.toNat < x.toNat
      · simp [hyx]
      · have hx : x = y := by
          have hn : x.toNat = y.toNat := by omega
          have hv : x.val = y.val := UInt32.toNat.inj hn
          exact Char.eq_of_val_eq hv
        subst hx
        simp only [hxy, if_false, hyx] at h1
        have hxs : xs ≠ ys := fun hh => hne (by rw [hh])
        simp [hxy, hyx, charsLt_total h1 hxs]

theorem keyLt_irrefl (a : String) : keyLt a a = false :=
  charsLt_irrefl a.data

theorem keyLt_trans {a b c : String} (h1 : keyLt a b = true)
    (h2 : keyLt b c = true) : keyLt a c = true :=
  charsLt_trans h1 h2

theorem keyLt_total {a b : String} (h1 : keyLt a b = false) (hne : a ≠ b) :
    keyLt b a = true := by
  refine charsLt_total h1 fun hd => hne ?_
  cases a; cases b
  exact congrArg String.mk hd

theorem bucketGet_put_self (s : Bucket) (k : String) (v : Record) :
    bucketGet (bucketPut s k v) k = some v := by
  induction s with
  | nil => simp [bucketPut, bucketGet]
  | cons kv rest ih =>
    obtain ⟨k', v'⟩ := kv
    by_cases h1 : keyLt k k'
    · simp [bucketPut, h1, bucketGet]
    · by_cases h2 : k = k'
      · subst h2
        simp [bucketPut, keyLt_irrefl, bucketGet]
      · simp [bucketPut, h1, h2, bucketGet, ih]

theorem bucketGet_put_ne (s : Bucket) (k j : String) (v : Record) (hne : j ≠ k) :
    bucketGet (bucketPut s k v) j = bucketGet s j := by
  induction s with
  | nil => simp [bucketPut, bucketGet, hne]
  | cons kv rest ih =>
    obtain ⟨k', v'⟩ := kv
    by_cases h1 : keyLt k k'
    · simp [bucketPut, h1, bucketGet, hne]
    · by_cases h2 : k = k'
      · subst h2
        simp [bucketPut, h1, bucketGet, hne]
      · simp only [bucketPut, if_neg h1, if_neg h2, bucketGet]
        by_cases h3 : j = k'
        · simp [h3]
        · simp [h3, ih]

theorem bucketDelete_absent (s : Bucket) (k : String)
    (h : bucketGet s k = none) : bucketDelete s k = s := by
  induction s with
  | nil => rfl
  | cons kv rest ih =>
    obtain ⟨k', v'⟩ := kv
    by_cases h3 : k = k'
    · simp [bucketGet, h3] at h
    · simp only [bucketGet, if_neg h3] at h
      simp [bucketDelete, h3, ih h]

theorem bucketDelete_put_fresh (s : Bucket) (k : String) (v : Record)
    (h : bucketGet s k = none) : bucketDelete (bucketPut s k v) k = s := by
  induction s with
  | nil => simp [bucketPut, bucketDelete]
  | cons kv rest ih =>
    obtain ⟨k', v'⟩ := kv
    by_cases h3 : k = k'
    · simp [bucketGet, h3] at h
    · simp only [bucketGet, if_neg h3] at h
      by_cases h1 : keyLt k k'
      · simp [bucketPut, h1, bucketDelete, h3, bucketDelete_absent _ _ h]
      · simp [bucketPut, h1, h3, bucketDelete, ih h]

theorem mem_bucketPut (s : Bucket) (k : String) (v : Record) :
    ∀ kv ∈ bucketPut s k v, kv = (k, v) ∨ kv ∈ s := by
  induction s with
  | nil => simp [bucketPut]
  | cons hd rest ih =>
    obtain ⟨k', v'⟩ := hd
    intro kv hkv
    by_cases h1 : keyLt k k'
    · simp only [bucketPut, if_pos h1, List.mem_cons] at hkv
      rcases hkv with h | h | h
      · exact Or.inl h
      · exact Or.inr (by simp [h])
      · exact Or.inr (by simp [h])
    · by_cases h2 : k = k'
      · simp only [bucketPut, if_neg h1, if_pos h2, List.mem_cons] at hkv
        rcases hkv with h | h
        · exact Or.inl h
        · exact Or.inr (by simp [h])
      · simp only [bucketPut, if_neg h1, if_neg h2, List.mem_cons] at hkv
        rcases hkv with h | h
        · exact Or.inr (by simp [h])
        · rcases ih kv h with h' | h'
          · exact Or.inl h'
          · exact Or.inr (by simp [h'])

theorem bucketPut_sorted (s : Bucket) (k : String) (v : Record)
    (hs : List.Pairwise (fun a b => keyLt a.1 b.1 = true) s) :
    List.Pairwise (fun a b => keyLt a.1 b.1 = true) (bucketPut s k v) := by
  induction s with
  | nil => simp [bucketPut]
  | cons hd rest ih =>
    obtain ⟨k', v'⟩ := hd
    rw [List.pairwise_cons] at hs
    obtain ⟨hhd, hrest⟩ := hs
    by_cases h1 : keyLt k k'
    · simp only [bucketPut, if_pos h1]
      refine List.Pairwise.cons ?_ (List.Pairwise.cons hhd hrest)
      intro b hb
      rcases List.mem_cons.mp hb with h | h
      · simpa [h] using h1
      · exact keyLt_trans h1 (hhd b h)
    · by_cases h2 : k = k'
      · subst h2
        simp only [bucketPut, if_neg h1, if_pos rfl]
        exact List.Pairwise.cons hhd hrest
      · have hk' : keyLt k' k = true :=
          keyLt_total (by simpa using h1) h2
        simp only [bucketPut, if_neg h1, if_neg h2]
        refine List.Pairwise.cons ?_ (ih hrest)
        intro b hb
        rcases mem_bucketPut rest k v b hb with h | h
        · simpa [h] using hk'
        · exact hhd b h

/-- One second and the backoff cap of `writeWithRetry` (kafka.go lines 122,
131-133), in nanoseconds. -/
def SECOND : Int := 1000000000

def MAX_BACKOFF : Int := 30 * SECOND

/-- Outcome of one `writer.WriteMessages` attempt, together with what the
connectivity monitor reports right after a failure (kafka.go lines 137-147). -/
inductive AttemptResult where
  | success
  | failOnline
  | failOffline
deriving DecidableEq

/-- The environment a sync run observes: the result of each numbered write
attempt, and whether the context is already cancelled when the loop reaches
the wait before that attempt (the `ctx.Done()` arm of the select at kafka.go
lines 126-134). -/
structure RetryEnv where
  attemptResult : Nat → AttemptResult
  cancelledBefore : Nat → Bool

/-- A Kafka message built from an event (kafka.go lines 92-99); the serialized
`value` is represented by the event itself and the RFC 3339 timestamp header by
the nanosecond value's string form. -/
structure Message where
  key : String
  value : Event
  headers : List (String × String)
deriving DecidableEq

/-- Externally visible operations of a sync run, in program order. -/
inductive SyncOp where
  | wait (d : Int)
  | write (msgs : List Message) (ok : Bool)
  | updateRetries (id : String) (ts : Int) (r : Int)
  | delete (id : String) (ts : Int)
deriving DecidableEq

/-- How the `for attempt` loop of `writeWithRetry` is left: a nil-error write
(`return nil`), context cancellation (`return ctx.Err()`), or falling through
to the retries-update loop (attempts exhausted, or `break` when the monitor
reports offline). -/
inductive LoopExit where
  | success
  | ctx
  | exhausted
deriving DecidableEq

/-- Result of `writeWithRetry` as seen by the caller. -/
inductive WriteResult where
  | ok
  | ctxCancelled
  | failed
deriving DecidableEq

namespace KafkaSync

/-- The `for attempt := 0; attempt < retries; attempt++` loop of
`writeWithRetry` (kafka.go lines 124-148).  `fuel` counts the remaining
iterations (`retries - attempt`); `backoff` is the current backoff duration,
entering at 1 s.  Before every attempt but the first the loop waits `backoff`,
then doubles it, capping at 30 s; a cancelled context at that point exits with
the context's error.  A nil write error returns success; a failed write with
the monitor offline breaks out of the loop. -/
def writeAttemptLoop (env : RetryEnv) (msgs : List Message) :
    Nat → Nat → Int → List SyncOp × LoopExit
  | 0, _, _ => ([], LoopExit.exhausted)
  | Nat.succ fuel, attempt, backoff =>
    if attempt = 0 then
      match env.attemptResult attempt with
      | AttemptResult.success => ([SyncOp.write msgs true], LoopExit.success)
      | AttemptResult.failOnline =>
        let next := writeAttemptLoop env msgs fuel (attempt + 1) backoff
        (SyncOp.write msgs false :: next.1, next.2)
      | AttemptResult.failOffline => ([SyncOp.write msgs false], LoopExit.exhausted)
    else if env.cancelledBefore attempt then
      ([], LoopExit.ctx)
    else
      let nb := if MAX_BACKOFF < backoff * 2 then MAX_BACKOFF else backoff * 2
      match env.attemptResult attempt with
      | AttemptResult.success =>
        ([SyncOp.wait backoff, SyncOp.write msgs true], LoopExit.success)
      | AttemptResult.failOnline =>
        let next := writeAttemptLoop env msgs fuel (attempt + 1) nb
        (SyncOp.wait backoff :: SyncOp.write msgs false :: next.1, next.2)
      | AttemptResult.failOffline =>
        ([SyncOp.wait backoff, SyncOp.write msgs false], LoopExit.exhausted)

/-- The retries-update loop of `writeWithRetry` (kafka.go lines 150-154):
`Buffer.UpdateRetries(id, ts, retries+1)` for every event; an update error is
logged and ignored. -/
def updateRetriesLoop : Bucket → List Event → Bucket × List SyncOp
  | st, [] => (st, [])
  | st, e :: rest =>
    let st1 := match Buffer.UpdateRetries st e.id e.timestamp (e.retries + 1) with
      | Except.ok st2 => st2
      | Except.error _ => st
    let next := updateRetriesLoop st1 rest
    (next.1, SyncOp.updateRetries e.id e.timestamp (e.retries + 1) :: next.2)

/-- `KafkaSync.writeWithRetry` (kafka.go lines 121-157): run the attempt loop
starting at backoff 1 s; on success or context cancellation return at once,
otherwise bump every event's retry count and return an error. -/
def writeWithRetry (env : RetryEnv) (retries : Nat) (s : Bucket)
    (msgs : List Message) (events : List Event) :
    Bucket × List SyncOp × WriteResult :=
  let run := writeAttemptLoop env msgs retries 0 SECOND
  match run.2 with
  | LoopExit.success => (s, run.1, WriteResult.ok)
  | LoopExit.ctx => (s, run.1, WriteResult.ctxCancelled)
  | LoopExit.exhausted =>
    let upd := updateRetriesLoop s events
    (upd.1, run.1 ++ upd.2, WriteResult.failed)

/-- The delete loop of `syncBatch` (kafka.go lines 111-115): after an overall
successful write, `Buffer.Delete(id, ts)` for every event of the original
list; a delete failure is logged but does not fail the batch. -/
def deleteLoop : Bucket → List Event → Bucket × List SyncOp
  | st, [] => (st, [])
  | st, e :: rest =>
    let st1 := match Buffer.Delete st e.id e.timestamp with
      | Except.ok st2 => st2
      | Except.error _ => st
    let next := deleteLoop st1 rest
    (next.1, SyncOp.delete e.id e.timestamp :: next.2)

/-- The fields of `config.KafkaConfig` that `syncBatch` consults. -/
structure KafkaConfig where
  retries : Nat
  batchSize : Nat

/-- Message construction of `syncBatch` (kafka.go lines 84-100).
`json.Marshal` of an event cannot fail, so no event is skipped here. -/
def serializeMessages (events : List Event) : List Message :=
  events.map fun e =>
    { key := e.id
      value := e
      headers := [("operation", e.operation), ("timestamp", toString e.timestamp)] }

/-- `KafkaSync.syncBatch` (kafka.go lines 72-119).  Note line 73 of the
source: the scan count passed to `Buffer.GetReadyEvents` is
`ks.config.Retries`, the Kafka retry count, not a batch size. -/
def syncBatch (env : RetryEnv) (cfg : KafkaConfig) (s : Bucket) (now : Int) :
    Bucket × List SyncOp × Bool :=
  let events := Buffer.GetReadyEvents s cfg.retries now
  if events.isEmpty then (s, [], true)
  else
    let messages := serializeMessages events
    if messages.isEmpty then (s, [], true)
    else
      let run := writeWithRetry env cfg.retries s messages events
      match run.2.2 with
      | WriteResult.ok =>
        let del := deleteLoop run.1 events
        (del.1, run.2.1 ++ del.2, true)
      | _ => (run.1, run.2.1, false)

end KafkaSync

/-- Twenty-four hours in nanoseconds: the cleanup cutoff `now.Add(-24 *
time.Hour)`. -/
def HOURS24 : Int := 86400000000000

namespace Scheduler

/-- The per-event loop of `cleanupTask`: delete events with `Retries > 10`
whose `Timestamp` is `Before(cutoff)`; a delete error is logged and the loop
continues. -/
def cleanupLoop (cutoff : Int) : Bucket → List Event → Bucket
  | st, [] => st
  | st, e :: rest =>
    if 10 < e.retries ∧ e.timestamp < cutoff then
      match Buffer.Delete st e.id e.timestamp with
      | Except.ok st1 => cleanupLoop cutoff st1 rest
      | Except.error _ => cleanupLoop cutoff st rest
    else cleanupLoop cutoff st rest

/-- `Scheduler.cleanupTask` (scheduler source lines 364-390): fetch up to
1000 events with `GetBatch(1000)`, compute `cutoff = now - 24h`, and delete
each fetched event with `retries > 10` and `timestamp` before the cutoff. -/
def cleanupTask (s : Bucket) (now : Int) : Bucket :=
  let events := Buffer.GetBatch s 1000
  let cutoff := now - HOURS24
  cleanupLoop cutoff s events

end Scheduler

/-- A buffer reached from the empty bucket by a sequence of `Store` calls. -/
def storeAll (evs : List Event) : Bucket :=
  evs.foldl Buffer.Store []

instance exceptDecEq {ε α : Type} [DecidableEq ε] [DecidableEq α] :
    DecidableEq (Except ε α)
  | Except.ok x, Except.ok y =>
    match decEq x y with
    | isTrue h => isTrue (by rw [h])
    | isFalse h => isFalse fun hh => h (by cases hh; rfl)
  | Except.ok _, Except.error _ => isFalse fun hh => Except.noConfusion hh
  | Except.error _, Except.ok _ => isFalse fun hh => Except.noConfusion hh
  | Except.error x, Except.error y =>
    match decEq x y with
    | isTrue h => isTrue (by rw [h])
    | isFalse h => isFalse fun hh => h (by cases hh; rfl)

theorem goodEvents_length_le (s : Bucket) : (goodEvents s).length ≤ s.length :=
  List.length_filterMap_le _ s

theorem goodEvents_length_lt (s : Bucket)
    (h : ∃ kv ∈ s, ∃ raw, kv.2 = Record.bad raw) :
    (goodEvents s).length < s.length := by
  induction s with
  | nil => simp at h
  | cons kv rest ih =>
    obtain ⟨k, v⟩ := kv
    cases v with
    | bad raw =>
      simp only [goodEvents, List.filterMap_cons, List.length_cons]
      exact Nat.lt_succ_of_le (goodEvents_length_le rest)
    | good e =>
      simp only [goodEvents, List.filterMap_cons, List.length_cons]
      have hrest : ∃ kv ∈ rest, ∃ raw, kv.2 = Record.bad raw := by
        rcases h with ⟨kv', hkv', raw, hbad⟩
        rcases List.mem_cons.mp hkv' with hh | hh
        · rw [hh] at hbad; cases hbad
        · exact ⟨kv', hh, raw, hbad⟩
      simpa using Nat.succ_lt_succ (ih hrest)

/-- C1: `GetReadyEvents(n)` at time `now` selects, in ascending key order and
subject to the `n`-count cutoff, exactly the stored events whose `readyAt`
(`RequestedReadyTime`) is nil or at most `now + READY_WINDOW` where
`READY_WINDOW` is 30 minutes; equivalently an event with
`readyAt = now + d` is excluded by the readiness predicate exactly when
`d > READY_WINDOW`. -/
theorem C1_ready_window_selection : ∀ (s : Bucket) (n : Nat) (now : Int),
    Buffer.GetReadyEvents s n now = ((goodEvents s).filter (isReady now)).take n
    ∧ (∀ e : Event, isReady now e = true ↔
        (e.requestedReadyTime = none ∨
         ∃ rt, e.requestedReadyTime = some rt ∧ rt ≤ now + READY_WINDOW))
    ∧ (∀ (e : Event) (d : Int), e.requestedReadyTime = some (now + d) →
        (isReady now e = false ↔ READY_WINDOW < d)) := by
  intro s n now
  refine ⟨Buffer.getReady_eq s n now, ?_, ?_⟩
  · intro e
    cases hrt : e.requestedReadyTime with
    | none => simp [isReady, hrt]
    | some rt =>
      by_cases hle : rt ≤ now + READY_WINDOW
      · simp [isReady, hrt, hle]
      · simp [isReady, hrt, hle]
  · intro e d hrt
    simp only [isReady, hrt]
    constructor
    · intro h
      by_contra hlt
      simp [show now + d ≤ now + READY_WINDOW by omega] at h
    · intro h
      simp [show ¬(now + d ≤ now + READY_WINDOW) by omega]

/-- Event used in witnesses: scheduled one nanosecond past the ready window. -/
def eLate : Event :=
  { id := "late", operation := "insert", timestamp := 0, data := [], retries := 0,
    requestedReadyTime := some 1800000000001 }

/-- Witness for C1 at a concrete input: an event scheduled `READY_WINDOW + 1`
nanoseconds after `now = 0` is not ready. -/
theorem C1_ready_window_selection_witness :
    isReady 0 eLate = false ↔ READY_WINDOW < 1800000000001 :=
  (C1_ready_window_selection [] 0 0).2.2 eLate 1800000000001 (by decide)

/-- C4: on a primary key absent from the buffer, `UpdateRetries` fails with
the not-found error and (the transaction aborting) the store is unchanged,
while `Delete` succeeds with no error and returns the store unchanged. -/
theorem C4_absent_key (s : Bucket) (id : String) (ts r : Int)
    (h : bucketGet s (eventKey ts id) = none) :
    Buffer.UpdateRetries s id ts r = Except.error "event not found"
    ∧ Buffer.Delete s id ts = Except.ok s := by
  constructor
  · simp [Buffer.UpdateRetries, h]
  · simp [Buffer.Delete, bucketDelete_absent s _ h]

/-- Witness for C4 at the empty bucket. -/
theorem C4_absent_key_witness :
    Buffer.UpdateRetries [] "a" 0 7 = Except.error "event not found"
    ∧ Buffer.Delete [] "a" 0 = Except.ok [] :=
  C4_absent_key [] "a" 0 7 (by decide)

/-- Event used by the C5 counterexample. -/
def eC5 : Event :=
  { id := "a", operation := "insert", timestamp := 5, data := [], retries := 0,
    requestedReadyTime := none }

/-- C5 fails as stated: starting from a buffer that already holds an event
with the same `(timestamp, id)` key, `Store(e)` overwrites the record and
`Delete(e.id, e.timestamp)` then removes it, so `Count` drops from 1 to 0. -/
theorem C5_cex :
    Buffer.Delete (Buffer.Store (Buffer.Store [] eC5) eC5) eC5.id eC5.timestamp
      = Except.ok []
    ∧ Buffer.Count [] ≠ Buffer.Count (Buffer.Store [] eC5) := by
  constructor
  · rfl
  · decide

/-- C5 amended: when no record with `e`'s key is present initially,
`Store(e); Delete(e.id, e.timestamp)` returns the starting store, so `Count`
is unchanged. -/
theorem C5_store_delete_count (s : Bucket) (e : Event)
    (h : bucketGet s (eventKey e.timestamp e.id) = none) :
    Buffer.Delete (Buffer.Store s e) e.id e.timestamp = Except.ok s := by
  simp [Buffer.Delete, Buffer.Store, bucketDelete_put_fresh s _ _ h]

/-- Witness for C5 amended: storing then deleting a fresh event on the empty
buffer returns the empty buffer. -/
theorem C5_store_delete_count_witness :
    Buffer.Delete (Buffer.Store [] eC5) eC5.id eC5.timestamp = Except.ok [] :=
  C5_store_delete_count [] eC5 (by decide)

/-- C7: `UpdateRetries(id, ts, k)` on a present key rewrites exactly that
record, setting `retries := k` and leaving every other field and every other
key unchanged; in particular `Store(e); UpdateRetries(e.id, e.timestamp, k);
GetBatch(1)` from the empty buffer returns `e` with `retries = k`. -/
theorem C7_update_retries_frame :
    (∀ (s : Bucket) (id : String) (ts : Int) (e : Event) (k : Int),
      bucketGet s (eventKey ts id) = some (Record.good e) →
      ∃ s2, Buffer.UpdateRetries s id ts k = Except.ok s2
        ∧ bucketGet s2 (eventKey ts id) = some (Record.good { e with retries := k })
        ∧ ∀ j, j ≠ eventKey ts id → bucketGet s2 j = bucketGet s j)
    ∧ (∀ (e : Event) (k : Int),
      (Buffer.UpdateRetries (Buffer.Store [] e) e.id e.timestamp k).map
          (fun s2 => Buffer.GetBatch s2 1)
        = Except.ok [{ e with retries := k }]) := by
  constructor
  · intro s id ts e k h
    refine ⟨bucketPut s (eventKey ts id) (Record.good { e with retries := k }), ?_, ?_, ?_⟩
    · simp [Buffer.UpdateRetries, h]
    · exact bucketGet_put_self s _ _
    · intro j hj
      exact bucketGet_put_ne s _ j _ hj
  · intro e k
    simp [Buffer.Store, Buffer.UpdateRetries, bucketPut, bucketGet, keyLt_irrefl,
      Buffer.GetBatch, Buffer.getBatchAux, Except.map]

/-- Witness for C7 at a concrete input: update the single stored event's
retries to 9 and read it back. -/
theorem C7_update_retries_frame_witness :
    ∃ s2, Buffer.UpdateRetries (Buffer.Store [] eC5) eC5.id eC5.timestamp 9
        = Except.ok s2
      ∧ bucketGet s2 (eventKey eC5.timestamp eC5.id)
          = some (Record.good { eC5 with retries := 9 })
      ∧ ∀ j, j ≠ eventKey eC5.timestamp eC5.id →
          bucketGet s2 j = bucketGet (Buffer.Store [] eC5) j :=
  C7_update_retries_frame.1 (Buffer.Store [] eC5) eC5.id eC5.timestamp eC5 9 (by decide)

/-- C10: both readers silently skip records whose value fails JSON decoding:
they return (without error) exactly the decodable events, a skipped record
does not count toward the `n` limit, and it still contributes to `Count`, so
with any bad record present a full scan returns strictly fewer events than
`Count` reports. -/
theorem C10_skip_undecodable : ∀ (s : Bucket) (n : Nat) (now : Int),
    Buffer.GetBatch s n = (goodEvents s).take n
    ∧ Buffer.GetReadyEvents s n now = ((goodEvents s).filter (isReady now)).take n
    ∧ ((∃ kv ∈ s, ∃ raw, kv.2 = Record.bad raw) →
        (Buffer.GetBatch s (Buffer.Count s)).length < Buffer.Count s) := by
  intro s n now
  refine ⟨Buffer.getBatch_eq s n, Buffer.getReady_eq s n now, ?_⟩
  intro h
  rw [Buffer.getBatch_eq]
  calc ((goodEvents s).take (Buffer.Count s)).length
      ≤ (goodEvents s).length := by
        rw [List.length_take]
        exact min_le_right _ _
    _ < Buffer.Count s := goodEvents_length_lt s h

/-- The decodable event of the mixed witness bucket. -/
def eGood : Event :=
  { id := "g", operation := "insert", timestamp := 1, data := [], retries := 0,
    requestedReadyTime := none }

/-- A bucket holding one good record and one undecodable record. -/
def sMixed : Bucket :=
  [(eventKey 1 "g", Record.good eGood), (eventKey 2 "x", Record.bad "not json")]

/-- Witness for C10 at a concrete input: a two-record bucket with one
undecodable value yields one event from a full scan while `Count` is 2. -/
theorem C10_skip_undecodable_witness :
    (Buffer.GetBatch sMixed (Buffer.Count sMixed)).length < Buffer.Count sMixed :=
  (C10_skip_undecodable sMixed 0 0).2.2
    ⟨(eventKey 2 "x", Record.bad "not json"), by simp [sMixed], "not json", rfl⟩

/-- Well-formedness: every decodable record sits under the compound key
computed from its own fields.  Every bucket reached by `Store` calls has
this shape. -/
def KeysMatch (s : Bucket) : Prop :=
  ∀ kv ∈ s, ∀ e, kv.2 = Record.good e → kv.1 = eventKey e.timestamp e.id

theorem keysMatch_cons {kv : String × Record} {rest : Bucket}
    (h : KeysMatch (kv :: rest)) : KeysMatch rest :=
  fun kv' hkv' e he => h kv' (List.mem_cons_of_mem kv hkv') e he

theorem keysMatch_store (s : Bucket) (e : Event) (h : KeysMatch s) :
    KeysMatch (Buffer.Store s e) := by
  intro kv hkv e' he'
  rcases mem_bucketPut s _ _ kv hkv with hh | hh
  · subst hh
    cases he'
    rfl
  · exact h kv hh e' he'

theorem storeAll_aux_sorted_keysMatch (evs : List Event) : ∀ s : Bucket,
    List.Pairwise (fun a b => keyLt a.1 b.1 = true) s → KeysMatch s →
    List.Pairwise (fun a b => keyLt a.1 b.1 = true) (List.foldl Buffer.Store s evs)
    ∧ KeysMatch (List.foldl Buffer.Store s evs) := by
  induction evs with
  | nil => intro s hs hk; exact ⟨hs, hk⟩
  | cons e rest ih =>
    intro s hs hk
    exact ih (Buffer.Store s e) (bucketPut_sorted s _ _ hs) (keysMatch_store s e hk)

theorem storeAll_sorted (evs : List Event) :
    List.Pairwise (fun a b => keyLt a.1 b.1 = true) (storeAll evs) :=
  (storeAll_aux_sorted_keysMatch evs [] (by simp) (by intro kv h; simp at h)).1

theorem storeAll_keysMatch (evs : List Event) : KeysMatch (storeAll evs) :=
  (storeAll_aux_sorted_keysMatch evs [] (by simp) (by intro kv h; simp at h)).2

theorem goodEvents_keys_sublist (s : Bucket) (h : KeysMatch s) :
    List.Sublist ((goodEvents s).map fun e => eventKey e.timestamp e.id)
      (s.map Prod.fst) := by
  induction s with
  | nil => simp [goodEvents]
  | cons kv rest ih =>
    obtain ⟨k, v⟩ := kv
    cases v with
    | bad raw =>
      simp only [goodEvents, List.filterMap_cons, List.map_cons]
      exact List.Sublist.cons k (ih (keysMatch_cons h))
    | good e =>
      have hk : k = eventKey e.timestamp e.id :=
        h (k, Record.good e) (by simp) e rfl
      simp only [goodEvents, List.filterMap_cons, List.map_cons, hk]
      exact List.Sublist.cons₂ _ (ih (keysMatch_cons h))

/-- Events of the C6 counterexample, with nanosecond timestamps 9 and 10. -/
def eTs9 : Event :=
  { id := "a", operation := "insert", timestamp := 9, data := [], retries := 0,
    requestedReadyTime := none }

def eTs10 : Event := { eTs9 with timestamp := 10 }

/-- C6 fails as stated: the keys are the strings "9_a" and "10_a", and in the
byte order the store iterates, "10_a" comes first, so the scan returns the
event with timestamp 10 before the event with timestamp 9 - not ascending
ingestion-time order. -/
theorem C6_cex :
    Buffer.GetBatch (storeAll [eTs9, eTs10]) 2 = [eTs10, eTs9]
    ∧ ¬(eTs10.timestamp < eTs9.timestamp
        ∨ (eTs10.timestamp = eTs9.timestamp ∧ eTs10.id = eTs9.id)) := by
  constructor
  · decide
  · intro h
    rcases h with h | ⟨h, _⟩
    · revert h; decide
    · revert h; decide

/-- C6 amended: after any sequence of `Store` calls, the storage keys of the
events returned by `GetBatch` are strictly ascending in the byte order of the
key strings (the order the store iterates).  This coincides with ascending
`(timestamp, id)` order only when the decimal forms of the nanosecond
timestamps all have the same length, which the counterexample's mixed-width
timestamps violate. -/
theorem C6_keys_ascending (evs : List Event) (n : Nat) :
    List.Pairwise (fun a b => keyLt a b = true)
      ((Buffer.GetBatch (storeAll evs) n).map fun e => eventKey e.timestamp e.id) := by
  rw [Buffer.getBatch_eq]
  have h1 : List.Sublist
      (((goodEvents (storeAll evs)).take n).map fun e => eventKey e.timestamp e.id)
      ((goodEvents (storeAll evs)).map fun e => eventKey e.timestamp e.id) :=
    (List.take_sublist n _).map _
  have h2 := goodEvents_keys_sublist (storeAll evs) (storeAll_keysMatch evs)
  have hp : List.Pairwise (fun a b => keyLt a b = true)
      ((storeAll evs).map Prod.fst) :=
    (List.pairwise_map).mpr (storeAll_sorted evs)
  exact List.Pairwise.sublist (h1.trans h2) hp

/-- `true` exactly on Kafka write attempts in a trace. -/
def isWriteOp : SyncOp → Bool
  | SyncOp.write _ _ => true
  | _ => false

/-- The backoff sleeps of a trace, in order. -/
def waitsOf (ops : List SyncOp) : List Int :=
  ops.filterMap fun op =>
    match op with
    | SyncOp.wait d => some d
    | _ => none

/-- The backoff before the `(j+1)`-st attempt: 1 s doubled `j` times, capped
at 30 s. -/
def idealBackoff (j : Nat) : Int :=
  min ((2 ^ j) * SECOND) MAX_BACKOFF

theorem writeAttemptLoop_ops (env : RetryEnv) (msgs : List Message) :
    ∀ (fuel attempt : Nat) (backoff : Int),
    ∀ op ∈ (KafkaSync.writeAttemptLoop env msgs fuel attempt backoff).1,
      (∃ d, op = SyncOp.wait d) ∨ ∃ m b, op = SyncOp.write m b := by
  intro fuel
  induction fuel with
  | zero =>
    intro attempt backoff op hop
    simp [KafkaSync.writeAttemptLoop] at hop
  | succ fuel ih =>
    intro attempt backoff op hop
    by_cases ha : attempt = 0
    · rcases har : env.attemptResult attempt with _ | _ | _ <;>
        simp only [KafkaSync.writeAttemptLoop, if_pos ha, har, List.mem_cons,
          List.mem_singleton] at hop
      · rcases hop with h | h
        · exact Or.inr ⟨msgs, true, h⟩
        · simp at h
      · rcases hop with h | h
        · exact Or.inr ⟨msgs, false, h⟩
        · exact ih (attempt + 1) backoff op h
      · rcases hop with h | h
        · exact Or.inr ⟨msgs, false, h⟩
        · simp at h
    · by_cases hc : env.cancelledBefore attempt
      · simp [KafkaSync.writeAttemptLoop, ha, hc] at hop
      · rcases har : env.attemptResult attempt with _ | _ | _ <;>
          simp only [KafkaSync.writeAttemptLoop, if_neg ha, hc, Bool.false_eq_true,
            if_false, har, List.mem_cons, List.mem_singleton] at hop
        · rcases hop with h | h | h
          · exact Or.inl ⟨backoff, h⟩
          · exact Or.inr ⟨msgs, true, h⟩
          · simp at h
        · rcases hop with h | h | h
          · exact Or.inl ⟨backoff, h⟩
          · exact Or.inr ⟨msgs, false, h⟩
          · exact ih (attempt + 1) _ op h
        · rcases hop with h | h | h
          · exact Or.inl ⟨backoff, h⟩
          · exact Or.inr ⟨msgs, false, h⟩
          · simp at h

theorem writeAttemptLoop_success_mem (env : RetryEnv) (msgs : List Message) :
    ∀ (fuel attempt : Nat) (backoff : Int),
    (KafkaSync.writeAttemptLoop env msgs fuel attempt backoff).2 = LoopExit.success →
    SyncOp.write msgs true ∈ (KafkaSync.writeAttemptLoop env msgs fuel attempt backoff).1 := by
  intro fuel
  induction fuel with
  | zero =>
    intro attempt backoff h
    simp [KafkaSync.writeAttemptLoop] at h
  | succ fuel ih =>
    intro attempt backoff h
    by_cases ha : attempt = 0
    · rcases har : env.attemptResult attempt with _ | _ | _
      · simp [KafkaSync.writeAttemptLoop, if_pos ha, har]
      · simp only [KafkaSync.writeAttemptLoop, if_pos ha, har] at h ⊢
        simp only [List.mem_cons]
        exact Or.inr (ih (attempt + 1) backoff (by simpa using h))
      · simp only [KafkaSync.writeAttemptLoop, if_pos ha, har] at h
        simp at h
    · by_cases hc : env.cancelledBefore attempt
      · simp [KafkaSync.writeAttemptLoop, ha, hc] at h
      · rcases har : env.attemptResult attempt with _ | _ | _
        · simp [KafkaSync.writeAttemptLoop, if_neg ha, hc, har]
        · simp only [KafkaSync.writeAttemptLoop, if_neg ha, hc, Bool.false_eq_true,
            if_false, har] at h ⊢
          simp only [List.mem_cons]
          exact Or.inr (Or.inr (ih (attempt + 1) _ (by simpa using h)))
        · simp only [KafkaSync.writeAttemptLoop, if_neg ha, hc, Bool.false_eq_true,
            if_false, har] at h
          simp at h

theorem writeAttemptLoop_write_count (env : RetryEnv) (msgs : List Message) :
    ∀ (fuel attempt : Nat) (backoff : Int),
    ((KafkaSync.writeAttemptLoop env msgs fuel attempt backoff).1.filter isWriteOp).length
      ≤ fuel := by
  intro fuel
  induction fuel with
  | zero =>
    intro attempt backoff
    simp [KafkaSync.writeAttemptLoop]
  | succ fuel ih =>
    intro attempt backoff
    by_cases ha : attempt = 0
    · rcases har : env.attemptResult attempt with _ | _ | _
      · simp [KafkaSync.writeAttemptLoop, if_pos ha, har, isWriteOp, List.filter_cons]
      · have hrec := ih (attempt + 1) backoff
        simp [KafkaSync.writeAttemptLoop, if_pos ha, har, isWriteOp, List.filter_cons]
        omega
      · simp [KafkaSync.writeAttemptLoop, if_pos ha, har, isWriteOp, List.filter_cons]
    · by_cases hc : env.cancelledBefore attempt
      · simp [KafkaSync.writeAttemptLoop, ha, hc]
      · rcases har : env.attemptResult attempt with _ | _ | _
        · simp [KafkaSync.writeAttemptLoop, if_neg ha, hc, har, isWriteOp, List.filter_cons]
        · have hrec := ih (attempt + 1)
            (if MAX_BACKOFF < backoff * 2 then MAX_BACKOFF else backoff * 2)
          simp [KafkaSync.writeAttemptLoop, if_neg ha, hc, har, isWriteOp, List.filter_cons]
          omega
        · simp [KafkaSync.writeAttemptLoop, if_neg ha, hc, har, isWriteOp, List.filter_cons]

theorem idealBackoff_zero : idealBackoff 0 = SECOND := by
  norm_num [idealBackoff, SECOND, MAX_BACKOFF]

theorem idealBackoff_step (a : Nat) :
    (if MAX_BACKOFF < idealBackoff a * 2 then MAX_BACKOFF else idealBackoff a * 2)
      = idealBackoff (a + 1) := by
  have hsec : (0 : Int) < SECOND := by norm_num [SECOND]
  have hpow : (0 : Int) < 2 ^ a * SECOND :=
    mul_pos (pow_pos (by norm_num) a) hsec
  have hdouble : (2 : Int) ^ (a + 1) * SECOND = (2 ^ a * SECOND) * 2 := by
    rw [pow_succ]; ring
  rcases le_or_lt ((2 : Int) ^ a * SECOND) MAX_BACKOFF with h | h
  · rw [idealBackoff, min_eq_left h]
    by_cases h2 : MAX_BACKOFF < 2 ^ a * SECOND * 2
    · rw [if_pos h2, idealBackoff, eq_comm, min_eq_right]
      rw [hdouble]
      exact le_of_lt h2
    · rw [if_neg h2, idealBackoff, eq_comm, min_eq_left]
      · rw [hdouble]
      · rw [hdouble]
        exact not_lt.mp h2
  · rw [idealBackoff, min_eq_right (le_of_lt h)]
    have hmax : (0 : Int) < MAX_BACKOFF := by norm_num [MAX_BACKOFF, SECOND]
    rw [if_pos (by omega), idealBackoff, eq_comm, min_eq_right]
    rw [hdouble]
    nlinarith

theorem waitsOf_nil : waitsOf [] = [] := rfl

theorem waitsOf_wait (d : Int) (ops : List SyncOp) :
    waitsOf (SyncOp.wait d :: ops) = d :: waitsOf ops := rfl

theorem waitsOf_write (m : List Message) (b : Bool) (ops : List SyncOp) :
    waitsOf (SyncOp.write m b :: ops) = waitsOf ops := rfl

/-- The ideal backoff sequence: `m` waits starting from the wait before
attempt `a + 1`. -/
def idealWaits : Nat → Nat → List Int
  | _, 0 => []
  | a, Nat.succ m => idealBackoff a :: idealWaits (a + 1) m

theorem idealWaits_eq_map : ∀ (m a : Nat),
    idealWaits a m = (List.range m).map fun k => idealBackoff (a + k) := by
  intro m
  induction m with
  | zero => intro a; rfl
  | succ m ih =>
    intro a
    rw [show idealWaits a (m + 1) = idealBackoff a :: idealWaits (a + 1) m from rfl,
      List.range_succ_eq_map, List.map_cons, List.map_map, ih (a + 1)]
    refine congrArg₂ (· :: ·) (by simp) ?_
    refine List.map_congr_left fun k _ => ?_
    simp only [Function.comp]
    congr 1
    omega

theorem writeAttemptLoop_waits (env : RetryEnv) (msgs : List Message) :
    ∀ (fuel a : Nat),
    ∃ m, waitsOf (KafkaSync.writeAttemptLoop env msgs fuel (a + 1) (idealBackoff a)).1
      = idealWaits a m := by
  intro fuel
  induction fuel with
  | zero =>
    intro a
    exact ⟨0, by simp [KafkaSync.writeAttemptLoop, waitsOf, idealWaits]⟩
  | succ fuel ih =>
    intro a
    by_cases hc : env.cancelledBefore (a + 1)
    · exact ⟨0, by simp [KafkaSync.writeAttemptLoop, hc, waitsOf, idealWaits]⟩
    · rcases har : env.attemptResult (a + 1) with _ | _ | _
      · refine ⟨1, ?_⟩
        simp [KafkaSync.writeAttemptLoop, hc, har, waitsOf_wait, waitsOf_write,
          waitsOf, idealWaits]
      · obtain ⟨m, hm⟩ := ih (a + 1)
        refine ⟨m + 1, ?_⟩
        have hnb := idealBackoff_step a
        simp only [KafkaSync.writeAttemptLoop, if_neg (Nat.succ_ne_zero a), hc,
          Bool.false_eq_true, if_false, har, hnb, waitsOf_wait, waitsOf_write]
        rw [show idealWaits a (m + 1) = idealBackoff a :: idealWaits (a + 1) m from rfl]
        exact congrArg (idealBackoff a :: ·) hm
      · refine ⟨1, ?_⟩
        simp [KafkaSync.writeAttemptLoop, hc, har, waitsOf_wait, waitsOf_write,
          waitsOf, idealWaits]

theorem writeAttemptLoop_waits_top (env : RetryEnv) (msgs : List Message)
    (fuel : Nat) :
    ∃ m, waitsOf (KafkaSync.writeAttemptLoop env msgs fuel 0 SECOND).1
      = (List.range m).map idealBackoff := by
  have hmain : ∃ m, waitsOf (KafkaSync.writeAttemptLoop env msgs fuel 0 SECOND).1
      = idealWaits 0 m := by
    cases fuel with
    | zero => exact ⟨0, by simp [KafkaSync.writeAttemptLoop, waitsOf, idealWaits]⟩
    | succ fuel =>
      rcases har : env.attemptResult 0 with _ | _ | _
      · exact ⟨0, by simp [KafkaSync.writeAttemptLoop, har, waitsOf, idealWaits]⟩
      · obtain ⟨m, hm⟩ := writeAttemptLoop_waits env msgs fuel 0
        refine ⟨m, ?_⟩
        simp only [KafkaSync.writeAttemptLoop, if_pos rfl, har, waitsOf_write]
        rw [← idealBackoff_zero]
        exact hm
      · exact ⟨0, by simp [KafkaSync.writeAttemptLoop, har, waitsOf, idealWaits]⟩
  obtain ⟨m, hm⟩ := hmain
  refine ⟨m, ?_⟩
  rw [hm, idealWaits_eq_map]
  exact List.map_congr_left fun k _ => by rw [Nat.zero_add]

theorem writeAttemptLoop_exhausted (env : RetryEnv) (msgs : List Message)
    (hfail : ∀ k, env.attemptResult k ≠ AttemptResult.success)
    (hcancel : ∀ k, env.cancelledBefore k = false) :
    ∀ (fuel attempt : Nat) (backoff : Int),
    (KafkaSync.writeAttemptLoop env msgs fuel attempt backoff).2 = LoopExit.exhausted := by
  intro fuel
  induction fuel with
  | zero => intro attempt backoff; rfl
  | succ fuel ih =>
    intro attempt backoff
    by_cases ha : attempt = 0
    · subst ha
      rcases har : env.attemptResult 0 with _ | _ | _
      · exact absurd har (hfail 0)
      · simpa [KafkaSync.writeAttemptLoop, har] using ih 1 backoff
      · simp [KafkaSync.writeAttemptLoop, har]
    · rcases har : env.attemptResult attempt with _ | _ | _
      · exact absurd har (hfail attempt)
      · simpa [KafkaSync.writeAttemptLoop, ha, hcancel attempt, har] using
          ih (attempt + 1) _
      · simp [KafkaSync.writeAttemptLoop, ha, hcancel attempt, har]

theorem updateRetriesLoop_ops : ∀ (evs : List Event) (s : Bucket),
    (KafkaSync.updateRetriesLoop s evs).2
      = evs.map fun e => SyncOp.updateRetries e.id e.timestamp (e.retries + 1) := by
  intro evs
  induction evs with
  | nil => intro s; rfl
  | cons e rest ih =>
    intro s
    simp only [KafkaSync.updateRetriesLoop, List.map_cons]
    rw [ih]

theorem deleteLoop_ops : ∀ (evs : List Event) (s : Bucket),
    (KafkaSync.deleteLoop s evs).2 = evs.map fun e => SyncOp.delete e.id e.timestamp := by
  intro evs
  induction evs with
  | nil => intro s; rfl
  | cons e rest ih =>
    intro s
    simp only [KafkaSync.deleteLoop, List.map_cons]
    rw [ih]

theorem writeAttemptLoop_no_delete (env : RetryEnv) (msgs : List Message)
    (fuel attempt : Nat) (backoff : Int) (id : String) (ts : Int) :
    SyncOp.delete id ts ∉ (KafkaSync.writeAttemptLoop env msgs fuel attempt backoff).1 := by
  intro hmem
  rcases writeAttemptLoop_ops env msgs fuel attempt backoff _ hmem with ⟨d, h⟩ | ⟨m, b, h⟩ <;>
    simp at h

theorem writeAttemptLoop_no_update (env : RetryEnv) (msgs : List Message)
    (fuel attempt : Nat) (backoff : Int) (id : String) (ts r : Int) :
    SyncOp.updateRetries id ts r
      ∉ (KafkaSync.writeAttemptLoop env msgs fuel attempt backoff).1 := by
  intro hmem
  rcases writeAttemptLoop_ops env msgs fuel attempt backoff _ hmem with ⟨d, h⟩ | ⟨m, b, h⟩ <;>
    simp at h

/-- `writeWithRetry` returns one of three shapes, fixed by how the attempt
loop exits. -/
theorem writeWithRetry_cases (env : RetryEnv) (retries : Nat) (s : Bucket)
    (msgs : List Message) (events : List Event) :
    (∃ lops, KafkaSync.writeAttemptLoop env msgs retries 0 SECOND = (lops, LoopExit.success)
      ∧ KafkaSync.writeWithRetry env retries s msgs events = (s, lops, WriteResult.ok))
    ∨ (∃ lops, KafkaSync.writeAttemptLoop env msgs retries 0 SECOND = (lops, LoopExit.ctx)
      ∧ KafkaSync.writeWithRetry env retries s msgs events
          = (s, lops, WriteResult.ctxCancelled))
    ∨ (∃ lops,
        KafkaSync.writeAttemptLoop env msgs retries 0 SECOND = (lops, LoopExit.exhausted)
      ∧ KafkaSync.writeWithRetry env retries s msgs events
          = ((KafkaSync.updateRetriesLoop s events).1,
             lops ++ (KafkaSync.updateRetriesLoop s events).2, WriteResult.failed)) := by
  rcases hl : KafkaSync.writeAttemptLoop env msgs retries 0 SECOND with ⟨lops, lex⟩
  cases lex with
  | success =>
    refine Or.inl ⟨lops, rfl, ?_⟩
    simp only [KafkaSync.writeWithRetry, hl]
  | ctx =>
    refine Or.inr (Or.inl ⟨lops, rfl, ?_⟩)
    simp only [KafkaSync.writeWithRetry, hl]
  | exhausted =>
    refine Or.inr (Or.inr ⟨lops, rfl, ?_⟩)
    simp only [KafkaSync.writeWithRetry, hl]

theorem filter_write_update_ops (events : List Event) :
    ((events.map fun e => SyncOp.updateRetries e.id e.timestamp (e.retries + 1)).filter
      isWriteOp) = [] := by
  induction events with
  | nil => rfl
  | cons e rest ih => simp [List.filter_cons, isWriteOp, ih]

theorem waitsOf_update_ops (events : List Event) :
    waitsOf (events.map fun e => SyncOp.updateRetries e.id e.timestamp (e.retries + 1))
      = [] := by
  induction events with
  | nil => rfl
  | cons e rest ih => simp [waitsOf, List.filterMap_cons, ih]

theorem waitsOf_append (a b : List SyncOp) :
    waitsOf (a ++ b) = waitsOf a ++ waitsOf b :=
  List.filterMap_append a b _

/-- C3: `writeWithRetry` makes at most `retries` (`KAFKA_RETRIES`) write
attempts; the waits between consecutive attempts are the exponential backoff
sequence 1 s, 2 s, 4 s, ... capped at 30 s; when it returns an error (all
attempts failed, or the loop was abandoned because the monitor reported
offline) the trace ends with `UpdateRetries(e.id, e.timestamp, e.retries + 1)`
for every event of the batch; when the context is cancelled while waiting to
retry it returns the context's error with the buffer untouched and no
retries update anywhere in the trace; and an environment in which no attempt
succeeds and the context is never cancelled always ends in the error
return. -/
theorem C3_write_retry_backoff
    (env : RetryEnv) (retries : Nat) (s : Bucket) (msgs : List Message)
    (events : List Event) (s2 : Bucket) (ops : List SyncOp) (res : WriteResult)
    (hrun : KafkaSync.writeWithRetry env retries s msgs events = (s2, ops, res)) :
    ((ops.filter isWriteOp).length ≤ retries)
    ∧ (∃ m, waitsOf ops = (List.range m).map idealBackoff)
    ∧ (res = WriteResult.failed →
        ∃ ops0, ops = ops0
          ++ events.map fun e => SyncOp.updateRetries e.id e.timestamp (e.retries + 1))
    ∧ (res = WriteResult.ctxCancelled →
        s2 = s ∧ ∀ id ts r, SyncOp.updateRetries id ts r ∉ ops)
    ∧ ((∀ k, env.attemptResult k ≠ AttemptResult.success) →
       (∀ k, env.cancelledBefore k = false) →
        res = WriteResult.failed) := by
  have hcount := writeAttemptLoop_write_count env msgs retries 0 SECOND
  have hwaits := writeAttemptLoop_waits_top env msgs retries
  rcases writeWithRetry_cases env retries s msgs events with
    ⟨lops, hl, hw⟩ | ⟨lops, hl, hw⟩ | ⟨lops, hl, hw⟩ <;>
    rw [hw] at hrun <;>
    rw [hl] at hcount hwaits <;>
    rw [Prod.mk.injEq, Prod.mk.injEq] at hrun <;>
    obtain ⟨h1, h2, h3⟩ := hrun
  · subst h1; subst h2; subst h3
    refine ⟨hcount, hwaits, ?_, ?_, ?_⟩
    · intro h; simp at h
    · intro h; simp at h
    · intro hfail hcancel
      have hex := writeAttemptLoop_exhausted env msgs hfail hcancel retries 0 SECOND
      rw [hl] at hex
      simp at hex
  · subst h1; subst h2; subst h3
    refine ⟨hcount, hwaits, ?_, ?_, ?_⟩
    · intro h; simp at h
    · intro h
      refine ⟨rfl, fun id ts r => ?_⟩
      have := writeAttemptLoop_no_update env msgs retries 0 SECOND id ts r
      rw [hl] at this
      exact this
    · intro hfail hcancel
      have hex := writeAttemptLoop_exhausted env msgs hfail hcancel retries 0 SECOND
      rw [hl] at hex
      simp at hex
  · subst h1; subst h2; subst h3
    rw [updateRetriesLoop_ops]
    refine ⟨?_, ?_, ?_, ?_, ?_⟩
    · rw [List.filter_append, filter_write_update_ops]
      simpa using hcount
    · obtain ⟨m, hm⟩ := hwaits
      exact ⟨m, by rw [waitsOf_append, waitsOf_update_ops, List.append_nil, hm]⟩
    · intro _
      exact ⟨lops, rfl⟩
    · intro h; simp at h
    · intro _ _; rfl

/-- C2: in every execution of `syncBatch`, a `Buffer.Delete` is performed
only after a nil-error (acknowledged) Kafka write earlier in the trace, and
only for an event of the batch fetched at the start of that execution:
at-least-once delivery. -/
theorem C2_delete_after_ack
    (env : RetryEnv) (cfg : KafkaSync.KafkaConfig) (s : Bucket) (now : Int)
    (s2 : Bucket) (ops : List SyncOp) (ok : Bool)
    (hrun : KafkaSync.syncBatch env cfg s now = (s2, ops, ok))
    (pre post : List SyncOp) (id : String) (ts : Int)
    (hsplit : ops = pre ++ SyncOp.delete id ts :: post) :
    (∃ m, SyncOp.write m true ∈ pre)
    ∧ ∃ e ∈ Buffer.GetReadyEvents s cfg.retries now, e.id = id ∧ e.timestamp = ts := by
  simp only [KafkaSync.syncBatch] at hrun
  by_cases hemp : (Buffer.GetReadyEvents s cfg.retries now).isEmpty = true
  · rw [if_pos hemp] at hrun
    rw [Prod.mk.injEq, Prod.mk.injEq] at hrun
    obtain ⟨-, h2, -⟩ := hrun
    subst h2
    simp at hsplit
  · rw [if_neg hemp] at hrun
    by_cases hemp2 :
        (KafkaSync.serializeMessages (Buffer.GetReadyEvents s cfg.retries now)).isEmpty
          = true
    · rw [if_pos hemp2] at hrun
      rw [Prod.mk.injEq, Prod.mk.injEq] at hrun
      obtain ⟨-, h2, -⟩ := hrun
      subst h2
      simp at hsplit
    · rw [if_neg hemp2] at hrun
      rcases writeWithRetry_cases env cfg.retries s
          (KafkaSync.serializeMessages (Buffer.GetReadyEvents s cfg.retries now))
          (Buffer.GetReadyEvents s cfg.retries now) with
        ⟨lops, hl, hw⟩ | ⟨lops, hl, hw⟩ | ⟨lops, hl, hw⟩ <;>
        rw [hw] at hrun <;>
        dsimp only at hrun <;>
        rw [Prod.mk.injEq, Prod.mk.injEq] at hrun <;>
        obtain ⟨-, h2, -⟩ := hrun
      · -- overall success: deletes happen, all after the acknowledged write
        have hnod : SyncOp.delete id ts ∉ lops := by
          have h := writeAttemptLoop_no_delete env
            (KafkaSync.serializeMessages (Buffer.GetReadyEvents s cfg.retries now))
            cfg.retries 0 SECOND id ts
          rw [hl] at h
          exact h
        have hmemw : SyncOp.write
            (KafkaSync.serializeMessages (Buffer.GetReadyEvents s cfg.retries now)) true
            ∈ lops := by
          have h := writeAttemptLoop_success_mem env
            (KafkaSync.serializeMessages (Buffer.GetReadyEvents s cfg.retries now))
            cfg.retries 0 SECOND (by rw [hl])
          rw [hl] at h
          exact h
        rw [deleteLoop_ops] at h2
        have heq : pre ++ SyncOp.delete id ts :: post
            = lops ++ (Buffer.GetReadyEvents s cfg.retries now).map
                (fun e => SyncOp.delete e.id e.timestamp) := by
          rw [← hsplit, ← h2]
        constructor
        · rcases List.append_eq_append_iff.mp heq with ⟨a', ha1, ha2⟩ | ⟨c', hc1, hc2⟩
          · cases a' with
            | nil =>
              rw [List.append_nil] at ha1
              subst ha1
              exact ⟨_, hmemw⟩
            | cons x t =>
              exfalso
              rw [List.cons_append] at ha2
              injection ha2 with hx hrest
              apply hnod
              rw [ha1, ← hx]
              simp
          · rw [hc1]
            exact ⟨_, List.mem_append_left c' hmemw⟩
        · have hmemo : SyncOp.delete id ts
              ∈ lops ++ (Buffer.GetReadyEvents s cfg.retries now).map
                  (fun e => SyncOp.delete e.id e.timestamp) := by
            rw [← heq]; simp
          rcases List.mem_append.mp hmemo with h | h
          · exact absurd h hnod
          · rcases List.mem_map.mp h with ⟨e, he, heq2⟩
            rw [SyncOp.delete.injEq] at heq2
            exact ⟨e, he, heq2.1, heq2.2⟩
      · -- context cancelled: no delete in the trace at all
        exfalso
        have hnod : SyncOp.delete id ts ∉ lops := by
          have h := writeAttemptLoop_no_delete env
            (KafkaSync.serializeMessages (Buffer.GetReadyEvents s cfg.retries now))
            cfg.retries 0 SECOND id ts
          rw [hl] at h
          exact h
        apply hnod
        rw [h2, hsplit]
        simp
      · -- retries exhausted: only writes, waits and retry updates in the trace
        exfalso
        have hnod : SyncOp.delete id ts ∉ lops := by
          have h := writeAttemptLoop_no_delete env
            (KafkaSync.serializeMessages (Buffer.GetReadyEvents s cfg.retries now))
            cfg.retries 0 SECOND id ts
          rw [hl] at h
          exact h
        have hmemo : SyncOp.delete id ts
            ∈ lops ++ (KafkaSync.updateRetriesLoop s
                (Buffer.GetReadyEvents s cfg.retries now)).2 := by
          rw [h2, hsplit]
          simp
        rcases List.mem_append.mp hmemo with h | h
        · exact absurd h hnod
        · rw [updateRetriesLoop_ops] at h
          rcases List.mem_map.mp h with ⟨e, -, heq2⟩
          simp at heq2

/-- Environment in which the first write attempt is acknowledged. -/
def envOk : RetryEnv :=
  { attemptResult := fun _ => AttemptResult.success
    cancelledBefore := fun _ => false }

/-- Environment in which every write attempt fails with the monitor online
and the context is never cancelled. -/
def envAllFail : RetryEnv :=
  { attemptResult := fun _ => AttemptResult.failOnline
    cancelledBefore := fun _ => false }

/-- Environment in which writes fail and the context is cancelled at the
first wait. -/
def envCancelled : RetryEnv :=
  { attemptResult := fun _ => AttemptResult.failOnline
    cancelledBefore := fun _ => true }

/-- Witness for C2 at a concrete run: one ready event, first write
acknowledged; the trace is the successful write followed by the delete. -/
theorem C2_delete_after_ack_witness :
    (∃ m, SyncOp.write m true
      ∈ [SyncOp.write (KafkaSync.serializeMessages [eC5]) true])
    ∧ ∃ e ∈ Buffer.GetReadyEvents (Buffer.Store [] eC5) 1 0,
        e.id = "a" ∧ e.timestamp = 5 :=
  C2_delete_after_ack envOk { retries := 1, batchSize := 1 } (Buffer.Store [] eC5) 0
    _ _ _ rfl [SyncOp.write (KafkaSync.serializeMessages [eC5]) true] []
    "a" 5 (by decide)

/-- Witness for C3 at concrete runs: with two always-failing attempts the
trace ends in the retries update for the batch's one event, and with a
cancellation at the first wait the store is untouched and no update occurs. -/
theorem C3_write_retry_backoff_witness :
    (∃ ops0,
      (KafkaSync.writeWithRetry envAllFail 2 (Buffer.Store [] eC5)
          (KafkaSync.serializeMessages [eC5]) [eC5]).2.1
        = ops0 ++ [eC5].map fun e => SyncOp.updateRetries e.id e.timestamp (e.retries + 1))
    ∧ ((KafkaSync.writeWithRetry envCancelled 2 (Buffer.Store [] eC5)
          (KafkaSync.serializeMessages [eC5]) [eC5]).1 = Buffer.Store [] eC5
        ∧ ∀ id ts r, SyncOp.updateRetries id ts r
            ∉ (KafkaSync.writeWithRetry envCancelled 2 (Buffer.Store [] eC5)
                (KafkaSync.serializeMessages [eC5]) [eC5]).2.1) := by
  constructor
  · exact (C3_write_retry_backoff envAllFail 2 _ _ [eC5] _ _ _ rfl).2.2.1 (by decide)
  · exact (C3_write_retry_backoff envCancelled 2 _ _ [eC5] _ _ _ rfl).2.2.2.1 (by decide)

/-- An event with neither a scheduled ready time nor prior retries. -/
def mkSimple (id : String) (ts : Int) : Event :=
  { id := id, operation := "insert", timestamp := ts, data := [], retries := 0,
    requestedReadyTime := none }

/-- Five immediately-ready events under keys "1_a" .. "5_e". -/
def sFive : Bucket :=
  storeAll [mkSimple "a" 1, mkSimple "b" 2, mkSimple "c" 3, mkSimple "d" 4,
    mkSimple "e" 5]

/-- C8: the source's `syncBatch` (kafka.go line 73) passes `ks.config.Retries`
- the Kafka retry count - to `GetReadyEvents`, not the configured batch size.
With the defaults `KAFKA_RETRIES = 3` and a batch size of 100, a run over five
ready events succeeds but syncs and deletes only three of them, leaving
`Count = 2`, although the batch size covers all five; an empty fetch still
returns success with no write.  This contradicts the documented
`GetReadyEvents(BATCH_SIZE)` contract. -/
theorem C8_scan_count_bug :
    Buffer.Count sFive = 5
    ∧ (KafkaSync.syncBatch envOk { retries := 3, batchSize := 100 } sFive 0).2.2 = true
    ∧ Buffer.Count
        (KafkaSync.syncBatch envOk { retries := 3, batchSize := 100 } sFive 0).1 = 2
    ∧ (Buffer.GetReadyEvents sFive 100 0).length = 5
    ∧ KafkaSync.syncBatch envOk { retries := 3, batchSize := 100 } [] 0
        = ([], [], true) := by
  decide

/-- The cleanup predicate on a stored record: decodes, has `retries > 10`,
and `timestamp` before `now - 24h`. -/
def recExpired (now : Int) : Record → Bool
  | Record.good e => decide (10 < e.retries) && decide (e.timestamp < now - HOURS24)
  | Record.bad _ => false

theorem goodEvents_mem (s : Bucket) (e : Event) (he : e ∈ goodEvents s) :
    ∃ kv ∈ s, kv.2 = Record.good e := by
  rcases List.mem_filterMap.mp he with ⟨kv, hkv, hsome⟩
  rcases hv : kv.2 with e' | raw
  · rw [hv] at hsome
    simp only [Option.some.injEq] at hsome
    exact ⟨kv, hkv, by rw [hv, hsome]⟩
  · rw [hv] at hsome
    simp at hsome

theorem cleanupLoop_cons_comm (cutoff : Int) (k0 : String) (v0 : Record) :
    ∀ (evs : List Event) (st : Bucket),
      (∀ e ∈ evs, eventKey e.timestamp e.id ≠ k0) →
      Scheduler.cleanupLoop cutoff ((k0, v0) :: st) evs
        = (k0, v0) :: Scheduler.cleanupLoop cutoff st evs := by
  intro evs
  induction evs with
  | nil => intro st h; rfl
  | cons e rest ih =>
    intro st h
    have hne : eventKey e.timestamp e.id ≠ k0 := h e (List.mem_cons_self e rest)
    by_cases hcond : 10 < e.retries ∧ e.timestamp < cutoff
    · simp only [Scheduler.cleanupLoop, if_pos hcond, Buffer.Delete]
      rw [show bucketDelete ((k0, v0) :: st) (eventKey e.timestamp e.id)
          = (k0, v0) :: bucketDelete st (eventKey e.timestamp e.id) from by
        simp [bucketDelete, hne]]
      exact ih _ fun e' he' => h e' (List.mem_cons_of_mem e he')
    · simp only [Scheduler.cleanupLoop, if_neg hcond]
      exact ih st fun e' he' => h e' (List.mem_cons_of_mem e he')

theorem cleanupLoop_goods (now : Int) : ∀ s : Bucket,
    List.Pairwise (fun a b => keyLt a.1 b.1 = true) s → KeysMatch s →
    Scheduler.cleanupLoop (now - HOURS24) s (goodEvents s)
      = s.filter fun kv => !recExpired now kv.2 := by
  intro s
  induction s with
  | nil => intro _ _; rfl
  | cons kv rest ih =>
    obtain ⟨k0, v0⟩ := kv
    intro hs hk
    rw [List.pairwise_cons] at hs
    obtain ⟨hhd, hrest⟩ := hs
    have hner : ∀ e' ∈ goodEvents rest, eventKey e'.timestamp e'.id ≠ k0 := by
      intro e' he' hcontra
      rcases goodEvents_mem rest e' he' with ⟨kv', hkv', hgood⟩
      have hkey : kv'.1 = eventKey e'.timestamp e'.id :=
        hk kv' (List.mem_cons_of_mem _ hkv') e' hgood
      have hlt := hhd kv' hkv'
      rw [hkey, hcontra] at hlt
      simp [keyLt_irrefl] at hlt
    cases v0 with
    | bad raw =>
      rw [show goodEvents ((k0, Record.bad raw) :: rest) = goodEvents rest from by
        simp [goodEvents]]
      rw [cleanupLoop_cons_comm _ _ _ _ _ hner, ih hrest (keysMatch_cons hk)]
      simp [List.filter_cons, recExpired]
    | good e0 =>
      have hkey0 : k0 = eventKey e0.timestamp e0.id :=
        hk (k0, Record.good e0) (List.mem_cons_self _ _) e0 rfl
      rw [show goodEvents ((k0, Record.good e0) :: rest) = e0 :: goodEvents rest from by
        simp [goodEvents]]
      by_cases hcond : 10 < e0.retries ∧ e0.timestamp < now - HOURS24
      · simp only [Scheduler.cleanupLoop, if_pos hcond, Buffer.Delete]
        rw [show bucketDelete ((k0, Record.good e0) :: rest)
            (eventKey e0.timestamp e0.id) = rest from by
          simp [bucketDelete, hkey0]]
        rw [ih hrest (keysMatch_cons hk)]
        have hx : recExpired now (Record.good e0) = true := by
          simp [recExpired, hcond.1, hcond.2]
        simp [List.filter_cons, hx]
      · simp only [Scheduler.cleanupLoop, if_neg hcond]
        rw [cleanupLoop_cons_comm _ _ _ _ _ hner, ih hrest (keysMatch_cons hk)]
        have hx : recExpired now (Record.good e0) = false := by
          by_cases h1 : 10 < e0.retries
          · have h2 : ¬ e0.timestamp < now - HOURS24 := fun h2 => hcond ⟨h1, h2⟩
            simp [recExpired, h1, h2]
          · simp [recExpired, h1]
        simp [List.filter_cons, hx]

theorem getBatch_all (s : Bucket) (h : s.length ≤ 1000) :
    Buffer.GetBatch s 1000 = goodEvents s := by
  rw [Buffer.getBatch_eq]
  exact List.take_of_length_le (le_trans (goodEvents_length_le s) h)

/-- C9 amended: when the buffer holds at most 1000 records (the cap of the
`GetBatch(1000)` fetch inside the task) and is well formed (keys strictly
ascending, each decodable record under its own compound key), firing
`cleanup_old_events` leaves exactly the records that do not satisfy
`retries > 10 ∧ timestamp < now - 24h`; in particular no surviving event
satisfies both conditions and every other record is untouched.  Beyond 1000
records the task never examines the excess, which the counterexample
exploits. -/
theorem C9_cleanup_scan_cap (s : Bucket) (now : Int)
    (hs : List.Pairwise (fun a b => keyLt a.1 b.1 = true) s)
    (hk : KeysMatch s) (hlen : s.length ≤ 1000) :
    Scheduler.cleanupTask s now = s.filter fun kv => !recExpired now kv.2 := by
  simp only [Scheduler.cleanupTask]
  rw [getBatch_all s hlen]
  exact cleanupLoop_goods now s hs hk

/-- Zero-pad a number below 10000 to four digits, so that id order matches
numeric order. -/
def pad4 (i : Nat) : String :=
  let s := toString i
  (List.replicate (4 - s.length) '0').asString ++ s

/-- The `i`-th event of the over-1000 cleanup counterexample: all share the
old timestamp 1000 ns; only the last (largest-key) one has `retries = 11`. -/
def evScan (i : Nat) : Event :=
  { id := "e" ++ pad4 i, operation := "insert", timestamp := 1000, data := [],
    retries := if i = 1000 then 11 else 0, requestedReadyTime := none }

/-- A well-formed bucket of 1001 records in ascending key order whose only
record matching the cleanup conditions sits beyond the 1000-record fetch. -/
def sScan : Bucket :=
  (List.range 1001).map fun i =>
    (eventKey (evScan i).timestamp (evScan i).id, Record.good (evScan i))

/-- A call time far after the stored timestamps, so `timestamp < now - 24h`
holds for every stored event. -/
def nowScan : Int := 200000000000000

/-- Adjacent-key ascending check (with `keyLt` transitive this is strict
sortedness). -/
def keysSortedB : Bucket → Bool
  | [] => true
  | [_] => true
  | a :: b :: rest => keyLt a.1 b.1 && keysSortedB (b :: rest)

set_option maxRecDepth 200000 in
/-- C9 fails as stated: the task fetches only `GetBatch(1000)`, so in this
sorted, well-formed 1001-record buffer the sole event with `retries > 10` and
a timestamp older than 24 hours - stored under the largest key - is never
examined, and a scan after the task still returns an event satisfying both
cleanup conditions. -/
theorem C9_cex :
    keysSortedB sScan = true
    ∧ (sScan.all fun kv =>
        match kv.2 with
        | Record.good e => kv.1 == eventKey e.timestamp e.id
        | Record.bad _ => true) = true
    ∧ sScan.length = 1001
    ∧ ((Buffer.GetBatch (Scheduler.cleanupTask sScan nowScan) 1001).any fun e =>
        decide (10 < e.retries) && decide (e.timestamp < nowScan - HOURS24)) = true := by
  decide

/-- Events of the C9 witness buffer: one old high-retry event, one fresh one. -/
def eOld : Event :=
  { id := "o", operation := "insert", timestamp := 5, data := [], retries := 11,
    requestedReadyTime := none }

def eNew : Event :=
  { id := "n", operation := "insert", timestamp := 6, data := [], retries := 0,
    requestedReadyTime := none }

def sTwo : Bucket :=
  [(eventKey eOld.timestamp eOld.id, Record.good eOld),
   (eventKey eNew.timestamp eNew.id, Record.good eNew)]

/-- Witness for C9 amended at a concrete input: a two-record buffer from
which the cleanup deletes exactly the expired record. -/
theorem C9_cleanup_scan_cap_witness :
    Scheduler.cleanupTask sTwo nowScan
      = sTwo.filter fun kv => !recExpired nowScan kv.2 :=
  C9_cleanup_scan_cap sTwo nowScan
    (by
      refine List.Pairwise.cons ?_ (List.Pairwise.cons (by simp) List.Pairwise.nil)
      intro b hb
      rcases List.mem_cons.mp hb with h | h
      · subst h; decide
      · simp at h)
    (by
      intro kv hkv e he
      rcases List.mem_cons.mp hkv with h | h
      · subst h
        cases he
        rfl
      · rcases List.mem_cons.mp h with h2 | h2
        · subst h2
          cases he
          rfl
        · simp at h2)
    (by decide)
